import Mathlib

/-!
Verification of the terminal rendering backend against a shallow Lean embedding.

Covered subsystems, each translated from the C++ sources:
* the byte-budget LRU glyph cache (`research/fonts/nerd-fonts/samples/02-glyph-atlas-cache.cpp`),
* the instance batcher of `BackendD3D12` (`src/renderer/atlas/BackendD3D12.cpp`),
* the frame scheduler (fences, triple buffering, present) of `BackendD3D12`,
* a shelf rect packer modelled from the specification (the stb rect-pack
  implementation used by `BackendOpenGL` is vendored and not part of the sources).

Machine integers are modelled as `Nat`/`Int`; all reachable states stay far from
the 64-bit range, and where `size_t` subtraction occurs the development proves
the accounting invariant that rules out underflow.
-/

/- ============================================================ -/
/- Part 1: GlyphAtlasCache (02-glyph-atlas-cache.cpp)           -/
/- ============================================================ -/

/-- `GlyphCacheKey` from 02-glyph-atlas-cache.cpp: uniquely identifies a glyph. -/
structure GlyphCacheKey where
  fontID : Nat
  glyphID : Nat
  fontSize : Nat
  dpi : Nat
  weight : Nat
  style : Nat
deriving DecidableEq, Repr

/-- `GlyphAtlasEntry` from 02-glyph-atlas-cache.cpp: location in the GPU texture
plus the byte footprint. `lastAccessTime` (a `steady_clock::time_point`) is
modelled as a `Nat` timestamp supplied by the caller. -/
structure GlyphAtlasEntry where
  atlasTextureID : Nat
  x : Nat
  y : Nat
  width : Nat
  height : Nat
  dataSize : Nat
  lastAccessTime : Nat
deriving DecidableEq, Repr

/-- `GlyphAtlasCache::MAX_ATLAS_SIZE = 256 * 1024 * 1024` (256 MiB). -/
def MAX_ATLAS_SIZE : Nat := 256 * 1024 * 1024

/-- State of `GlyphAtlasCache`: `m_cache` (an `unordered_map`, modelled as a
key-unique association list), `m_lruList` (a `std::list`, front = most recent),
and `m_currentMemoryUsage` (a `size_t`). -/
structure GlyphAtlasCache where
  cache : List (GlyphCacheKey × GlyphAtlasEntry)
  lruList : List GlyphCacheKey
  currentMemoryUsage : Nat
deriving DecidableEq, Repr

/-- The freshly constructed cache (`GlyphAtlasCache() : m_currentMemoryUsage(0)`). -/
def emptyCache : GlyphAtlasCache := ⟨[], [], 0⟩

/-- `m_cache.find(key)`: first (and, on key-unique maps, only) binding of `k`. -/
def mapFind (m : List (GlyphCacheKey × GlyphAtlasEntry)) (k : GlyphCacheKey) :
    Option GlyphAtlasEntry :=
  match m with
  | [] => none
  | (k', e) :: rest => if k' = k then some e else mapFind rest k

/-- `m_cache[key] = entry`: overwrite the existing binding or append a new one. -/
def mapInsert (m : List (GlyphCacheKey × GlyphAtlasEntry)) (k : GlyphCacheKey)
    (e : GlyphAtlasEntry) : List (GlyphCacheKey × GlyphAtlasEntry) :=
  match m with
  | [] => [(k, e)]
  | (k', e') :: rest => if k' = k then (k, e) :: rest else (k', e') :: mapInsert rest k e

/-- `m_cache.erase(it)` for the binding of `k`: remove the first binding of `k`. -/
def mapErase (m : List (GlyphCacheKey × GlyphAtlasEntry)) (k : GlyphCacheKey) :
    List (GlyphCacheKey × GlyphAtlasEntry) :=
  match m with
  | [] => []
  | (k', e') :: rest => if k' = k then rest else (k', e') :: mapErase rest k

/-- `GlyphAtlasCache::TouchGlyph`: `m_lruList.remove(key)` (removes all copies),
`push_front(key)`, then update `lastAccessTime` of the map entry if present. -/
def TouchGlyph (c : GlyphAtlasCache) (k : GlyphCacheKey) (now : Nat) : GlyphAtlasCache :=
  let lru := k :: c.lruList.filter (fun x => x ≠ k)
  let cache :=
    match mapFind c.cache k with
    | some e => mapInsert c.cache k { e with lastAccessTime := now }
    | none => c.cache
  { cache := cache, lruList := lru, currentMemoryUsage := c.currentMemoryUsage }

/-- `GlyphAtlasCache::EvictOldestGlyph`: pop the back of the LRU list; if that
key is in the map, subtract its `dataSize` and erase it. -/
def EvictOldestGlyph (c : GlyphAtlasCache) : GlyphAtlasCache :=
  match c.lruList.getLast? with
  | none => c
  | some oldest =>
    let lru := c.lruList.dropLast
    match mapFind c.cache oldest with
    | some e =>
      { cache := mapErase c.cache oldest,
        lruList := lru,
        currentMemoryUsage := c.currentMemoryUsage - e.dataSize }
    | none => { c with lruList := lru }

/-- One fuel-indexed unrolling of the eviction loop of `GlyphAtlasCache::AddGlyph`:
`while (m_currentMemoryUsage + entry.dataSize > MAX_ATLAS_SIZE && !m_cache.empty())
 EvictOldestGlyph();`. -/
def evictLoopF (fuel : Nat) (c : GlyphAtlasCache) (ds : Nat) : GlyphAtlasCache :=
  match fuel with
  | 0 => c
  | fuel + 1 =>
    if MAX_ATLAS_SIZE < c.currentMemoryUsage + ds ∧ c.cache ≠ [] then
      evictLoopF fuel (EvictOldestGlyph c) ds
    else c

/-- The eviction loop of `GlyphAtlasCache::AddGlyph`. Every iteration of the C++
loop removes one node of `m_lruList` (and possibly one map entry), so on any
state satisfying the cache invariant the loop runs at most `|m_lruList|`
iterations; `|m_lruList| + 1` checks of the condition therefore reach the
loop's exit exactly. (On the invariant-violating states where `m_cache` is
non-empty but `m_lruList` is empty the C++ loop would never terminate; the
fuel model returns the state unchanged there.) -/
def evictLoop (c : GlyphAtlasCache) (ds : Nat) : GlyphAtlasCache :=
  evictLoopF (c.lruList.length + 1) c ds

/-- `GlyphAtlasCache::AddGlyph`: evict until the new entry fits (or the map is
empty), then `m_cache[key] = entry`, `m_lruList.push_front(key)`,
`m_currentMemoryUsage += entry.dataSize`. -/
def AddGlyph (c : GlyphAtlasCache) (k : GlyphCacheKey) (e : GlyphAtlasEntry) :
    GlyphAtlasCache :=
  let c' := evictLoop c e.dataSize
  { cache := mapInsert c'.cache k e,
    lruList := k :: c'.lruList,
    currentMemoryUsage := c'.currentMemoryUsage + e.dataSize }

/-- `GlyphAtlasCache::TryGetGlyph`: on a hit, touch recency and return the entry
(read through the still-valid iterator after `TouchGlyph`, hence with the
updated `lastAccessTime`); on a miss return `false` and do nothing. -/
def TryGetGlyph (c : GlyphAtlasCache) (k : GlyphCacheKey) (now : Nat) :
    Bool × Option GlyphAtlasEntry × GlyphAtlasCache :=
  match mapFind c.cache k with
  | some e => (true, some { e with lastAccessTime := now }, TouchGlyph c k now)
  | none => (false, none, c)

/-- One externally visible cache operation. -/
inductive CacheOp where
  | insert (k : GlyphCacheKey) (e : GlyphAtlasEntry)
  | tryGet (k : GlyphCacheKey) (now : Nat)
deriving DecidableEq, Repr

def applyOp (c : GlyphAtlasCache) : CacheOp → GlyphAtlasCache
  | .insert k e => AddGlyph c k e
  | .tryGet k now => (TryGetGlyph c k now).2.2

/-- Run a sequence of operations from the freshly constructed cache. -/
def runOps (ops : List CacheOp) : GlyphAtlasCache := ops.foldl applyOp emptyCache

/-- Total byte footprint of the live entries (the map contents). -/
def liveSum (c : GlyphAtlasCache) : Nat := (c.cache.map (fun kv => kv.2.dataSize)).sum

/-- Keys of the association list modelling `m_cache`. -/
def mapKeys (m : List (GlyphCacheKey × GlyphAtlasEntry)) : List GlyphCacheKey :=
  m.map (fun kv => kv.1)

/-- Total byte footprint of an association list of entries. -/
def mapSum (m : List (GlyphCacheKey × GlyphAtlasEntry)) : Nat :=
  (m.map (fun kv => kv.2.dataSize)).sum

/-- Representation invariant of `GlyphAtlasCache`, maintained by every
operation: map keys are unique, every live key is on the LRU list, and the
tracked `m_currentMemoryUsage` dominates the live byte footprint (it can
exceed it only transiently, through double-insertion of one key). -/
def CacheInv (c : GlyphAtlasCache) : Prop :=
  (mapKeys c.cache).Nodup ∧
  (∀ kv ∈ c.cache, kv.1 ∈ c.lruList) ∧
  liveSum c ≤ c.currentMemoryUsage

/-- Demonstration key `i` (distinct `fontID`s give distinct keys). -/
def demoKey (i : Nat) : GlyphCacheKey := ⟨i, 0, 0, 0, 0, 0⟩

/-- Demonstration entry of byte size `sz`. -/
def demoEntry (sz : Nat) : GlyphAtlasEntry := ⟨0, 0, 0, 0, 0, sz, 0⟩

/-- A byte size such that exactly three entries fit in `MAX_ATLAS_SIZE`:
`3 * demoSize ≤ MAX_ATLAS_SIZE < 4 * demoSize`. -/
def demoSize : Nat := 89478485

/-- Scenario of claim C6: insert A,B,C,D (keys 0..3) of equal size with budget
room for three, then `TryGetGlyph` on A. -/
def opsC6 : List CacheOp :=
  [.insert (demoKey 0) (demoEntry demoSize),
   .insert (demoKey 1) (demoEntry demoSize),
   .insert (demoKey 2) (demoEntry demoSize),
   .insert (demoKey 3) (demoEntry demoSize),
   .tryGet (demoKey 0) 99]

/- ============================================================ -/
/- Part 2: BackendD3D12 instance batcher                        -/
/- ============================================================ -/

/-- `QuadInstance` from BackendD3D12.h (shadingType: u16, renditionScale: u8x2,
position: i16x2, size: u16x2, texcoord: u16x2, color: u32). -/
structure QuadInstance where
  shadingType : Nat
  renditionScale : Nat × Nat
  position : Int × Int
  size : Nat × Nat
  texcoord : Nat × Nat
  color : Nat
deriving DecidableEq, Repr

/-- `BatchedDrawCall` from BackendD3D12.h. Its `shadingType` field has type
`ShadingType`, an `enum class : u8`, modelled as a `Nat` that the batcher only
ever stores reduced modulo 2^8 (the value of
`static_cast<ShadingType>(instance.shadingType)`). -/
structure BatchedDrawCall where
  instanceOffset : Nat
  instanceCount : Nat
  shadingType : Nat
deriving DecidableEq, Repr

/-- `BackendD3D12::MaxInstances = 65536`. -/
def MaxInstances : Nat := 65536

/-- The batcher state: `_instances`, `_batches`, `_instanceCount`. -/
structure BatcherState where
  instances : List QuadInstance
  batches : List BatchedDrawCall
  instanceCount : Nat
deriving DecidableEq, Repr

/-- `BackendD3D12::_batchBegin`: clear both vectors and the counter. -/
def batchBegin : BatcherState := ⟨[], [], 0⟩

/-- The conversion `static_cast<ShadingType>(instance.shadingType)`:
`QuadInstance::shadingType` is a `u16` while `ShadingType` is an
`enum class : u8`, so the cast truncates the value modulo 2^8. -/
def toShadingType (t : Nat) : Nat := t % 256

/-- `BackendD3D12::_batchAddInstance`: return unchanged at the cap; otherwise
start a new batch when `_batches` is empty or the last batch's shading type
differs from `static_cast<ShadingType>(instance.shadingType)` (the u16 value
truncated to the u8 enum), else increment the last batch's count; then push
the instance and refresh `_instanceCount`. -/
def batchAddInstance (s : BatcherState) (q : QuadInstance) : BatcherState :=
  if MaxInstances ≤ s.instances.length then s
  else
    let batches :=
      match s.batches.getLast? with
      | none => s.batches ++ [⟨s.instances.length, 1, toShadingType q.shadingType⟩]
      | some b =>
        if b.shadingType ≠ toShadingType q.shadingType then
          s.batches ++ [⟨s.instances.length, 1, toShadingType q.shadingType⟩]
        else
          s.batches.dropLast ++ [⟨b.instanceOffset, b.instanceCount + 1, b.shadingType⟩]
    { instances := s.instances ++ [q],
      batches := batches,
      instanceCount := (s.instances ++ [q]).length }

/-- Submit a stream of instances starting from `_batchBegin`'s empty state. -/
def batchRun (qs : List QuadInstance) : BatcherState :=
  qs.foldl batchAddInstance batchBegin

/-- Sum of `instanceCount` over a batch list. -/
def sumCounts (bs : List BatchedDrawCall) : Nat :=
  (bs.map (fun b => b.instanceCount)).sum

/-- The batch list describes consecutive ranges starting at `n`: each batch
starts where the previous one ended and is non-empty. -/
def offsetsOk : Nat → List BatchedDrawCall → Prop
  | _, [] => True
  | n, b :: bs =>
    b.instanceOffset = n ∧ 1 ≤ b.instanceCount ∧ offsetsOk (n + b.instanceCount) bs

/-- The per-instance shading types described by a batch list. -/
def flattenTypes (bs : List BatchedDrawCall) : List Nat :=
  (bs.map (fun b => List.replicate b.instanceCount b.shadingType)).flatten

/-- Modelled from the spec: the number of maximal runs of equal shading type
in submission order ("the number of batches equals the number of maximal runs
of equal shadingType in submission order"). -/
def runCount : List Nat → Nat
  | [] => 0
  | [_] => 1
  | a :: b :: l => (if a = b then 0 else 1) + runCount (b :: l)

/-- Demonstration instance with shading type `t`. -/
def demoQuad (t : Nat) : QuadInstance := ⟨t, (0, 0), (0, 0), (0, 0), (0, 0), 0⟩

/-- The spec's batching example: shading types `[BG,BG,Text,Text,Text,Cursor]`
(Background = 0, TextGrayscale = 1, Cursor = 9 in the `ShadingType` enum). -/
def demoStream : List QuadInstance :=
  [demoQuad 0, demoQuad 0, demoQuad 1, demoQuad 1, demoQuad 1, demoQuad 9]

/-- Inductive invariant tying the batcher state to the submitted stream `qs`:
the instances are exactly the stream, the counter matches, batches describe
consecutive non-empty ranges from offset 0, their per-instance shading types
flatten back to the stream's truncated (u8) types, adjacent batches have
different shading types, the number of batches equals the number of maximal
runs of equal truncated type, and the last batch's shading type is the
stream's last truncated type. -/
def BatchInv (qs : List QuadInstance) (s : BatcherState) : Prop :=
  s.instances = qs ∧
  s.instanceCount = qs.length ∧
  offsetsOk 0 s.batches ∧
  flattenTypes s.batches = qs.map (fun q => toShadingType q.shadingType) ∧
  List.Chain' (fun a b => a.shadingType ≠ b.shadingType) s.batches ∧
  s.batches.length = runCount (qs.map (fun q => toShadingType q.shadingType)) ∧
  (s.batches.getLast?).map (fun b => b.shadingType)
    = (qs.map (fun q => toShadingType q.shadingType)).getLast?

/- ============================================================ -/
/- Part 3: BackendD3D12 frame scheduler                         -/
/- ============================================================ -/

/-- `BackendD3D12::FrameCount = 3` (triple buffering). -/
def FrameCount : Nat := 3

/-- `DXGI_ERROR_DEVICE_REMOVED = 0x887A0005` as a signed 32-bit HRESULT. -/
def DXGI_ERROR_DEVICE_REMOVED : Int := -2005270523

/-- `DXGI_ERROR_DEVICE_RESET = 0x887A0007` as a signed 32-bit HRESULT. -/
def DXGI_ERROR_DEVICE_RESET : Int := -2005270521

/-- The synchronization-relevant state of `BackendD3D12`'s frame scheduler.
`frameResources` keeps each slot's `FrameResource::fenceValue` watermark;
`completedValue` is the graphics fence's completed value (GPU side);
`signaled` is the largest value signalled on the graphics fence so far.
`resetLog` records, for every command-allocator reset performed by
`_beginFrame`, the slot, the watermark required for that slot, and the fence's
completed value at the moment of the reset. `signalLog` records the values
signalled by `_moveToNextFrame`, in order. -/
structure SchedulerState where
  frameResources : List Nat
  currentFrameIndex : Nat
  fenceValue : Nat
  completedValue : Nat
  signaled : Nat
  resetLog : List (Nat × Nat × Nat)
  signalLog : List Nat
deriving DecidableEq, Repr

/-- State after `_createFrameResources`: three slots with watermark 0, frame
index 0, `_fenceValue = 1`, fence created with completed value 0, nothing
signalled yet. -/
def initState : SchedulerState := ⟨[0, 0, 0], 0, 1, 0, 0, [], []⟩

/-- `_frameResources[_currentFrameIndex].fenceValue`. -/
def watermarkOf (s : SchedulerState) : Nat :=
  s.frameResources.getD s.currentFrameIndex 0

/-- `BackendD3D12::_beginFrame`: wait (if needed) until the fence's completed
value reaches the current slot's watermark, then reset the slot's command
allocator. `completedAfterWait` is the fence's completed value when execution
proceeds past the (possible) wait; `GpuStep` below constrains it to the
fence's semantics. The allocator reset is recorded in `resetLog`. -/
def beginFrame (s : SchedulerState) (completedAfterWait : Nat) : SchedulerState :=
  { s with
    completedValue := completedAfterWait,
    resetLog := s.resetLog ++ [(s.currentFrameIndex, watermarkOf s, completedAfterWait)] }

/-- `BackendD3D12::_populateCommandList` records GPU commands only; it does not
touch the synchronization state. -/
def populateCommandList (s : SchedulerState) : SchedulerState := s

/-- `BackendD3D12::_executeCommandLists` submits the recorded list; it does not
touch the synchronization state. -/
def executeCommandLists (s : SchedulerState) : SchedulerState := s

/-- `BackendD3D12::_present`: present the swap chain; on
`DXGI_ERROR_DEVICE_REMOVED` or `DXGI_ERROR_DEVICE_RESET` (and on any other
failing HRESULT, via `THROW_IF_FAILED`) the error is thrown to the caller;
no state is modified on the failure path. -/
def present (s : SchedulerState) (hr : Int) : Except Int SchedulerState :=
  if hr = DXGI_ERROR_DEVICE_REMOVED ∨ hr = DXGI_ERROR_DEVICE_RESET then .error hr
  else if hr < 0 then .error hr
  else .ok s

/-- `BackendD3D12::_moveToNextFrame`: signal the graphics fence with
`_fenceValue`, store that value as the current slot's watermark, advance
`_currentFrameIndex` to the back-buffer index reported by the swap chain, and
increment `_fenceValue`. -/
def moveToNextFrame (s : SchedulerState) (backBufferIndex : Nat) : SchedulerState :=
  { frameResources := s.frameResources.set s.currentFrameIndex s.fenceValue,
    currentFrameIndex := backBufferIndex,
    fenceValue := s.fenceValue + 1,
    completedValue := s.completedValue,
    signaled := max s.signaled s.fenceValue,
    resetLog := s.resetLog,
    signalLog := s.signalLog ++ [s.fenceValue] }

/-- `BackendD3D12::Render`: `_beginFrame; _populateCommandList;
_executeCommandLists; _present; _moveToNextFrame`, with a thrown HRESULT
aborting the sequence. -/
def render (s : SchedulerState) (completedAfterWait : Nat) (hr : Int)
    (backBufferIndex : Nat) : Except Int SchedulerState :=
  let s1 := beginFrame s completedAfterWait
  let s2 := populateCommandList s1
  let s3 := executeCommandLists s2
  match present s3 hr with
  | .error e => .error e
  | .ok s4 => .ok (moveToNextFrame s4 backBufferIndex)

/-- Fence semantics of the wait in `_beginFrame`: the completed value observed
at entry (`cNow`) is monotone and never exceeds what was signalled; if the
slot's watermark has not completed, `SetEventOnCompletion` +
`WaitForSingleObject` block until the completed value reaches the watermark
(`cAfter`), otherwise no wait occurs. -/
def GpuStep (s : SchedulerState) (cNow cAfter : Nat) : Prop :=
  s.completedValue ≤ cNow ∧ cNow ≤ s.signaled ∧
    (if cNow < watermarkOf s then watermarkOf s ≤ cAfter ∧ cAfter ≤ s.signaled
     else cAfter = cNow)

/-- Scheduler states reachable by the steady-state render loop: the initial
state, the state after a completed `Render`, and the state after a `Render`
aborted by a thrown present error (in which case `_moveToNextFrame` did not
run). -/
inductive Reachable : SchedulerState → Prop where
  | init : Reachable initState
  | renderOk {s s' : SchedulerState} {cNow cAfter : Nat} {hr : Int} {bb : Nat} :
      Reachable s → GpuStep s cNow cAfter → bb < FrameCount →
      render s cAfter hr bb = .ok s' → Reachable s'
  | renderErr {s : SchedulerState} {cNow cAfter : Nat} {hr : Int} {bb : Nat} {e : Int} :
      Reachable s → GpuStep s cNow cAfter → bb < FrameCount →
      render s cAfter hr bb = .error e → Reachable (beginFrame s cAfter)

/- ============================================================ -/
/- Part 4: rect-pack atlas allocator (BackendOpenGL)            -/
/- ============================================================ -/

/-- Modelled from the spec: a region returned by the rect-pack atlas allocator
(texcoord `(x, y)` plus size `(w, h)`). The packer used by `BackendOpenGL`
(`stbrp_context`, driven by `_drawGlyphAtlasAllocate`) is vendored and its
implementation is not part of the sources; only its declarations are. -/
structure PackRect where
  x : Nat
  y : Nat
  w : Nat
  h : Nat
deriving DecidableEq, Repr

/-- Modelled from the spec: the state of a shelf rect packer over a `width` ×
`height` atlas texture ("a skyline/shelf rect-packer tracks free space").
`allocated` logs every region returned so far. -/
structure RectPacker where
  width : Nat
  height : Nat
  shelfX : Nat
  shelfY : Nat
  shelfH : Nat
  allocated : List PackRect
deriving DecidableEq, Repr

/-- Modelled from the spec: a fresh packer over a `w` × `h` texture. -/
def rpInit (w h : Nat) : RectPacker := ⟨w, h, 0, 0, 0, []⟩

/-- Modelled from the spec: `Allocate(size) -> Option<texcoord>` for a shelf
packer — place the request on the current shelf if it fits, else open a new
shelf below, else fail ("fails (returns none) when no shelf has room"). -/
def rpAllocate (p : RectPacker) (w h : Nat) : Option (PackRect × RectPacker) :=
  if p.shelfX + w ≤ p.width ∧ p.shelfY + h ≤ p.height then
    some (⟨p.shelfX, p.shelfY, w, h⟩,
      { p with
        shelfX := p.shelfX + w,
        shelfH := max p.shelfH h,
        allocated := ⟨p.shelfX, p.shelfY, w, h⟩ :: p.allocated })
  else
    let y := p.shelfY + p.shelfH
    if w ≤ p.width ∧ y + h ≤ p.height then
      some (⟨0, y, w, h⟩,
        { p with
          shelfX := w,
          shelfY := y,
          shelfH := h,
          allocated := ⟨0, y, w, h⟩ :: p.allocated })
    else none

/-- Modelled from the spec: run a sequence of `Allocate` calls; failed calls
leave the packer unchanged (the caller would reset and regrow, which starts a
fresh packer and is outside this claim). -/
def rpRun (p : RectPacker) : List (Nat × Nat) → RectPacker
  | [] => p
  | (w, h) :: rest =>
    match rpAllocate p w h with
    | some (_, p') => rpRun p' rest
    | none => rpRun p rest

/-- Two regions are disjoint when their spans are separated on some axis. -/
def rectDisjoint (a b : PackRect) : Prop :=
  a.x + a.w ≤ b.x ∨ b.x + b.w ≤ a.x ∨ a.y + a.h ≤ b.y ∨ b.y + b.h ≤ a.y

instance (a b : PackRect) : Decidable (rectDisjoint a b) := by
  unfold rectDisjoint; infer_instance

/-- A region lies within a `w` × `h` texture. -/
def rectInBounds (r : PackRect) (w h : Nat) : Prop :=
  r.x + r.w ≤ w ∧ r.y + r.h ≤ h

instance (r : PackRect) (w h : Nat) : Decidable (rectInBounds r w h) := by
  unfold rectInBounds; infer_instance

/-- Shelf-packer invariant: every allocated region is in bounds, regions are
pairwise disjoint, and every region lies either entirely above the current
shelf or on the current shelf, left of the shelf cursor. -/
def PackInv (p : RectPacker) : Prop :=
  (∀ r ∈ p.allocated, rectInBounds r p.width p.height) ∧
  p.allocated.Pairwise rectDisjoint ∧
  (∀ r ∈ p.allocated,
    r.y + r.h ≤ p.shelfY ∨
    (r.y = p.shelfY ∧ r.x + r.w ≤ p.shelfX ∧ r.y + r.h ≤ p.shelfY + p.shelfH))

/- ============================================================ -/
/- Theorems. Part 1: the LRU cache                              -/
/- ============================================================ -/

theorem liveSum_eq_mapSum (c : GlyphAtlasCache) : liveSum c = mapSum c.cache := rfl

theorem mapFind_mem {m : List (GlyphCacheKey × GlyphAtlasEntry)} {k : GlyphCacheKey}
    {e : GlyphAtlasEntry} (h : mapFind m k = some e) : (k, e) ∈ m := by
  induction m with
  | nil => simp [mapFind] at h
  | cons kv rest ih =>
    obtain ⟨k', e'⟩ := kv
    by_cases hk : k' = k
    · subst hk
      simp [mapFind] at h
      subst h
      exact List.mem_cons_self _ _
    · simp [mapFind, hk] at h
      exact List.mem_cons_of_mem _ (ih h)

theorem mapFind_eq_none {m : List (GlyphCacheKey × GlyphAtlasEntry)} {k : GlyphCacheKey} :
    mapFind m k = none ↔ k ∉ mapKeys m := by
  induction m with
  | nil => simp [mapFind, mapKeys]
  | cons kv rest ih =>
    obtain ⟨k', e'⟩ := kv
    by_cases hk : k' = k
    · subst hk; simp [mapFind, mapKeys]
    · simp [mapFind, hk, mapKeys, ih, mapKeys]
      intro h
      exact fun he => hk he.symm

theorem mapKeys_mapInsert_found {m : List (GlyphCacheKey × GlyphAtlasEntry)}
    {k : GlyphCacheKey} {e0 e : GlyphAtlasEntry} (h : mapFind m k = some e0) :
    mapKeys (mapInsert m k e) = mapKeys m := by
  induction m with
  | nil => simp [mapFind] at h
  | cons kv rest ih =>
    obtain ⟨k', e'⟩ := kv
    by_cases hk : k' = k
    · subst hk; simp [mapInsert, mapKeys]
    · simp [mapFind, hk] at h
      simp [mapInsert, hk, mapKeys] at ih ⊢
      exact ih h

theorem mapKeys_mapInsert_none {m : List (GlyphCacheKey × GlyphAtlasEntry)}
    {k : GlyphCacheKey} {e : GlyphAtlasEntry} (h : mapFind m k = none) :
    mapKeys (mapInsert m k e) = mapKeys m ++ [k] := by
  induction m with
  | nil => simp [mapInsert, mapKeys]
  | cons kv rest ih =>
    obtain ⟨k', e'⟩ := kv
    by_cases hk : k' = k
    · subst hk; simp [mapFind] at h
    · simp [mapFind, hk] at h
      simp [mapInsert, hk, mapKeys] at ih ⊢
      exact ih h

theorem mapInsert_mem {m : List (GlyphCacheKey × GlyphAtlasEntry)} {k : GlyphCacheKey}
    {e : GlyphAtlasEntry} {kv : GlyphCacheKey × GlyphAtlasEntry}
    (h : kv ∈ mapInsert m k e) : kv = (k, e) ∨ kv ∈ m := by
  induction m with
  | nil => simpa [mapInsert] using h
  | cons kv' rest ih =>
    obtain ⟨k', e'⟩ := kv'
    by_cases hk : k' = k
    · subst hk
      simp [mapInsert] at h
      rcases h with h | h
      · exact Or.inl h
      · exact Or.inr (List.mem_cons_of_mem _ h)
    · simp [mapInsert, hk] at h
      rcases h with h | h
      · exact Or.inr (by simp [h])
      · rcases ih h with h' | h'
        · exact Or.inl h'
        · exact Or.inr (List.mem_cons_of_mem _ h')

theorem mapSum_mapInsert_le (m : List (GlyphCacheKey × GlyphAtlasEntry))
    (k : GlyphCacheKey) (e : GlyphAtlasEntry) :
    mapSum (mapInsert m k e) ≤ mapSum m + e.dataSize := by
  induction m with
  | nil => simp [mapInsert, mapSum]
  | cons kv rest ih =>
    obtain ⟨k', e'⟩ := kv
    by_cases hk : k' = k
    · subst hk; simp [mapInsert, mapSum]; omega
    · simp [mapInsert, hk, mapSum] at ih ⊢
      omega

theorem mapSum_mapInsert_same {m : List (GlyphCacheKey × GlyphAtlasEntry)}
    {k : GlyphCacheKey} {e0 e : GlyphAtlasEntry} (h : mapFind m k = some e0)
    (hds : e.dataSize = e0.dataSize) : mapSum (mapInsert m k e) = mapSum m := by
  induction m with
  | nil => simp [mapFind] at h
  | cons kv rest ih =>
    obtain ⟨k', e'⟩ := kv
    by_cases hk : k' = k
    · subst hk
      simp [mapFind] at h
      subst h
      simp [mapInsert, mapSum, hds]
    · simp [mapFind, hk] at h
      have hr := ih h
      simp [mapInsert, hk, mapSum] at hr ⊢
      omega

theorem mapSum_mapErase {m : List (GlyphCacheKey × GlyphAtlasEntry)}
    {k : GlyphCacheKey} {e : GlyphAtlasEntry} (h : mapFind m k = some e) :
    mapSum (mapErase m k) + e.dataSize = mapSum m := by
  induction m with
  | nil => simp [mapFind] at h
  | cons kv rest ih =>
    obtain ⟨k', e'⟩ := kv
    by_cases hk : k' = k
    · subst hk
      simp [mapFind] at h
      subst h
      simp [mapErase, mapSum]
      omega
    · simp [mapFind, hk] at h
      have hr := ih h
      simp [mapErase, hk, mapSum] at hr ⊢
      omega

theorem mapKeys_mapErase_sublist (m : List (GlyphCacheKey × GlyphAtlasEntry))
    (k : GlyphCacheKey) : List.Sublist (mapKeys (mapErase m k)) (mapKeys m) := by
  induction m with
  | nil => simp [mapErase, mapKeys]
  | cons kv rest ih =>
    obtain ⟨k', e'⟩ := kv
    by_cases hk : k' = k
    · simp only [mapErase, hk, if_pos rfl, mapKeys, List.map_cons]
      exact List.sublist_cons_self _ _
    · simp only [mapErase, hk, if_neg hk, mapKeys, List.map_cons] at ih ⊢
      exact ih.cons₂ _

theorem mem_mapKeys {m : List (GlyphCacheKey × GlyphAtlasEntry)}
    {kv : GlyphCacheKey × GlyphAtlasEntry} (h : kv ∈ m) : kv.1 ∈ mapKeys m :=
  List.mem_map_of_mem _ h

theorem mapErase_mem {m : List (GlyphCacheKey × GlyphAtlasEntry)} {k : GlyphCacheKey}
    {kv : GlyphCacheKey × GlyphAtlasEntry} (hnd : (mapKeys m).Nodup)
    (h : kv ∈ mapErase m k) : kv ∈ m ∧ kv.1 ≠ k := by
  induction m with
  | nil => simp [mapErase] at h
  | cons kv' rest ih =>
    obtain ⟨k', e'⟩ := kv'
    simp [mapKeys] at hnd
    by_cases hk : k' = k
    · subst hk
      simp [mapErase] at h
      refine ⟨List.mem_cons_of_mem _ h, ?_⟩
      intro hke
      exact hnd.1 kv.2 (by simpa [← hke] using h)
    · simp [mapErase, hk] at h
      rcases h with h | h
      · subst h
        exact ⟨List.mem_cons_self _ _, hk⟩
      · have := ih hnd.2 h
        exact ⟨List.mem_cons_of_mem _ this.1, this.2⟩

theorem single_le_mapSum {m : List (GlyphCacheKey × GlyphAtlasEntry)}
    {kv : GlyphCacheKey × GlyphAtlasEntry} (h : kv ∈ m) : kv.2.dataSize ≤ mapSum m :=
  List.single_le_sum (fun _ _ => Nat.zero_le _) _ (List.mem_map_of_mem _ h)

theorem touch_cacheInv {c : GlyphAtlasCache} (k : GlyphCacheKey) (now : Nat)
    (h : CacheInv c) : CacheInv (TouchGlyph c k now) := by
  obtain ⟨hnd, hmem, hsum⟩ := h
  unfold TouchGlyph
  rcases hf : mapFind c.cache k with _ | e <;> dsimp only
  · refine ⟨hnd, ?_, hsum⟩
    intro kv hkv
    by_cases hke : kv.1 = k
    · simp [hke]
    · simpa [hke] using hmem kv hkv
  · refine ⟨?_, ?_, ?_⟩
    · show (mapKeys (mapInsert c.cache k _)).Nodup
      simpa [mapKeys_mapInsert_found hf] using hnd
    · intro kv hkv
      rcases mapInsert_mem hkv with h' | h'
      · simp [h']
      · by_cases hke : kv.1 = k
        · simp [hke]
        · simpa [hke] using hmem kv h'
    · show mapSum (mapInsert c.cache k _) ≤ c.currentMemoryUsage
      have heq := mapSum_mapInsert_same (e := { e with lastAccessTime := now }) hf rfl
      rw [heq]
      exact hsum

theorem evict_cacheInv {c : GlyphAtlasCache} (h : CacheInv c) :
    CacheInv (EvictOldestGlyph c) := by
  obtain ⟨hnd, hmem, hsum⟩ := h
  unfold EvictOldestGlyph
  rcases hl : c.lruList.getLast? with _ | oldest
  · exact ⟨hnd, hmem, hsum⟩
  · have hlast : c.lruList.dropLast ++ [oldest] = c.lruList :=
      List.dropLast_append_getLast? oldest hl
    dsimp only
    rcases hf : mapFind c.cache oldest with _ | e <;> dsimp only
    · refine ⟨hnd, ?_, hsum⟩
      intro kv hkv
      have hin := hmem kv hkv
      have hne : kv.1 ≠ oldest := by
        intro hke
        exact (mapFind_eq_none.mp hf) (hke ▸ mem_mapKeys hkv)
      rw [← hlast] at hin
      rcases List.mem_append.mp hin with h' | h'
      · exact h'
      · simp at h'
        exact absurd h' hne
    · refine ⟨?_, ?_, ?_⟩
      · exact List.Nodup.sublist (mapKeys_mapErase_sublist c.cache oldest) hnd
      · intro kv hkv
        obtain ⟨hin, hne⟩ := mapErase_mem hnd hkv
        have hin' := hmem kv hin
        rw [← hlast] at hin'
        rcases List.mem_append.mp hin' with h' | h'
        · exact h'
        · simp at h'
          exact absurd h' hne
      · show mapSum (mapErase c.cache oldest) ≤ c.currentMemoryUsage - e.dataSize
        have h1 := mapSum_mapErase hf
        have h2 : e.dataSize ≤ mapSum c.cache := single_le_mapSum (mapFind_mem hf)
        have h3 : mapSum c.cache ≤ c.currentMemoryUsage := hsum
        omega

theorem evict_lru_lt {c : GlyphAtlasCache} (h : c.lruList ≠ []) :
    (EvictOldestGlyph c).lruList.length < c.lruList.length := by
  have hpos : 0 < c.lruList.length := List.length_pos.mpr h
  unfold EvictOldestGlyph
  split
  · next hl => exact absurd (List.getLast?_eq_none_iff.mp hl) h
  · split <;> (simp only [List.length_dropLast]; omega)

theorem evictLoopF_cacheInv (fuel : Nat) {c : GlyphAtlasCache} (ds : Nat)
    (h : CacheInv c) : CacheInv (evictLoopF fuel c ds) := by
  induction fuel generalizing c with
  | zero => exact h
  | succ fuel ih =>
    unfold evictLoopF
    split
    · exact ih (evict_cacheInv h)
    · exact h

theorem evictLoopF_fits (fuel : Nat) {c : GlyphAtlasCache} (ds : Nat)
    (h : CacheInv c) (hf : c.lruList.length < fuel) :
    (evictLoopF fuel c ds).currentMemoryUsage + ds ≤ MAX_ATLAS_SIZE ∨
      (evictLoopF fuel c ds).cache = [] := by
  induction fuel generalizing c with
  | zero => omega
  | succ fuel ih =>
    unfold evictLoopF
    split
    · next hcond =>
      obtain ⟨kv, hkv⟩ := List.exists_mem_of_ne_nil _ hcond.2
      have hlru : c.lruList ≠ [] := List.ne_nil_of_mem (h.2.1 kv hkv)
      have hlt := evict_lru_lt hlru
      exact ih (evict_cacheInv h) (by omega)
    · next hcond =>
      rcases not_and_or.mp hcond with h' | h'
      · exact Or.inl (by omega)
      · exact Or.inr (not_not.mp h')

theorem evictLoop_cacheInv {c : GlyphAtlasCache} (ds : Nat) (h : CacheInv c) :
    CacheInv (evictLoop c ds) := evictLoopF_cacheInv _ ds h

theorem evictLoop_fits {c : GlyphAtlasCache} (ds : Nat) (h : CacheInv c) :
    (evictLoop c ds).currentMemoryUsage + ds ≤ MAX_ATLAS_SIZE ∨
      (evictLoop c ds).cache = [] :=
  evictLoopF_fits _ ds h (Nat.lt_succ_self _)

theorem addGlyph_cacheInv {c : GlyphAtlasCache} (k : GlyphCacheKey)
    (e : GlyphAtlasEntry) (h : CacheInv c) : CacheInv (AddGlyph c k e) := by
  have hc' := evictLoop_cacheInv e.dataSize h
  obtain ⟨hnd, hmem, hsum⟩ := hc'
  unfold AddGlyph
  dsimp only
  refine ⟨?_, ?_, ?_⟩
  · show (mapKeys (mapInsert _ k e)).Nodup
    rcases hf : mapFind (evictLoop c e.dataSize).cache k with _ | e0
    · rw [mapKeys_mapInsert_none hf]
      simpa [List.nodup_append] using ⟨hnd, mapFind_eq_none.mp hf⟩
    · rw [mapKeys_mapInsert_found hf]
      exact hnd
  · intro kv hkv
    rcases mapInsert_mem hkv with h' | h'
    · simp [h']
    · exact List.mem_cons_of_mem _ (hmem kv h')
  · show mapSum (mapInsert (evictLoop c e.dataSize).cache k e) ≤
        (evictLoop c e.dataSize).currentMemoryUsage + e.dataSize
    have h1 := mapSum_mapInsert_le (evictLoop c e.dataSize).cache k e
    have h2 : mapSum (evictLoop c e.dataSize).cache ≤
        (evictLoop c e.dataSize).currentMemoryUsage := hsum
    omega

theorem addGlyph_liveSum {c : GlyphAtlasCache} (k : GlyphCacheKey)
    (e : GlyphAtlasEntry) (h : CacheInv c) (hds : e.dataSize ≤ MAX_ATLAS_SIZE) :
    liveSum (AddGlyph c k e) ≤ MAX_ATLAS_SIZE := by
  have hc' := evictLoop_cacheInv e.dataSize h
  have h1 := mapSum_mapInsert_le (evictLoop c e.dataSize).cache k e
  rcases evictLoop_fits e.dataSize h with hfit | hempty
  · have h2 : mapSum (evictLoop c e.dataSize).cache ≤
        (evictLoop c e.dataSize).currentMemoryUsage := hc'.2.2
    show mapSum (mapInsert _ k e) ≤ _
    omega
  · show mapSum (mapInsert _ k e) ≤ _
    rw [hempty]
    simpa [mapInsert, mapSum] using hds

theorem touch_liveSum (c : GlyphAtlasCache) (k : GlyphCacheKey) (now : Nat) :
    liveSum (TouchGlyph c k now) = liveSum c := by
  unfold TouchGlyph
  rcases hf : mapFind c.cache k with _ | e <;> dsimp only
  · rfl
  · show mapSum (mapInsert c.cache k _) = mapSum c.cache
    exact mapSum_mapInsert_same (e := { e with lastAccessTime := now }) hf rfl

theorem applyOp_cacheInv {c : GlyphAtlasCache} (op : CacheOp) (h : CacheInv c) :
    CacheInv (applyOp c op) := by
  cases op with
  | insert k e => exact addGlyph_cacheInv k e h
  | tryGet k now =>
    show CacheInv (TryGetGlyph c k now).2.2
    unfold TryGetGlyph
    rcases hf : mapFind c.cache k with _ | e
    · exact h
    · exact touch_cacheInv k now h

theorem applyOp_liveSum {c : GlyphAtlasCache} {op : CacheOp} (h : CacheInv c)
    (hb : liveSum c ≤ MAX_ATLAS_SIZE)
    (hop : ∀ k e, op = CacheOp.insert k e → e.dataSize ≤ MAX_ATLAS_SIZE) :
    liveSum (applyOp c op) ≤ MAX_ATLAS_SIZE := by
  cases op with
  | insert k e => exact addGlyph_liveSum k e h (hop k e rfl)
  | tryGet k now =>
    show liveSum (TryGetGlyph c k now).2.2 ≤ MAX_ATLAS_SIZE
    unfold TryGetGlyph
    rcases hf : mapFind c.cache k with _ | e
    · exact hb
    · show liveSum (TouchGlyph c k now) ≤ MAX_ATLAS_SIZE
      rw [touch_liveSum]
      exact hb

theorem foldl_cacheInv (ops : List CacheOp) (c : GlyphAtlasCache) (h : CacheInv c)
    (hb : liveSum c ≤ MAX_ATLAS_SIZE)
    (hops : ∀ k e, CacheOp.insert k e ∈ ops → e.dataSize ≤ MAX_ATLAS_SIZE) :
    CacheInv (ops.foldl applyOp c) ∧ liveSum (ops.foldl applyOp c) ≤ MAX_ATLAS_SIZE := by
  induction ops generalizing c with
  | nil => exact ⟨h, hb⟩
  | cons op rest ih =>
    simp only [List.foldl_cons]
    refine ih (applyOp c op) (applyOp_cacheInv op h) ?_ ?_
    · exact applyOp_liveSum h hb
        (fun k e hop => hops k e (hop ▸ List.mem_cons_self _ _))
    · exact fun k e hmem => hops k e (List.mem_cons_of_mem _ hmem)

theorem emptyCache_cacheInv : CacheInv emptyCache := by
  refine ⟨?_, ?_, ?_⟩ <;> simp [emptyCache, mapKeys, liveSum, mapSum]

theorem runOps_cacheInv (ops : List CacheOp) : CacheInv (runOps ops) := by
  unfold runOps
  induction ops using List.reverseRecOn with
  | nil => exact emptyCache_cacheInv
  | append_singleton rest op ih =>
    rw [List.foldl_append]
    exact applyOp_cacheInv op ih

/-- C2: for every sequence of `AddGlyph`/`TryGetGlyph` calls starting from the
fresh cache in which every inserted entry's `dataSize` is at most the budget
(`MAX_ATLAS_SIZE`), the sum of `dataSize` over all live entries is at most the
budget after every operation (every intermediate state is `runOps` of a shorter
sequence whose inserts satisfy the same bound). -/
theorem lru_budget_invariant (ops : List CacheOp)
    (hsz : ∀ k e, CacheOp.insert k e ∈ ops → e.dataSize ≤ MAX_ATLAS_SIZE) :
    liveSum (runOps ops) ≤ MAX_ATLAS_SIZE :=
  (foldl_cacheInv ops emptyCache emptyCache_cacheInv
    (by simp [liveSum, emptyCache]) hsz).2

/-- Witness for C2 at the concrete operation sequence `opsC6`. -/
theorem lru_budget_invariant_witness :
    (∀ k e, CacheOp.insert k e ∈ opsC6 → e.dataSize ≤ MAX_ATLAS_SIZE) ∧
    liveSum (runOps opsC6) ≤ MAX_ATLAS_SIZE := by
  have hsz : ∀ k e, CacheOp.insert k e ∈ opsC6 → e.dataSize ≤ MAX_ATLAS_SIZE := by
    intro k e hm
    simp only [opsC6, List.mem_cons, List.not_mem_nil, or_false] at hm
    rcases hm with h | h | h | h | h
    · injection h with h1 h2; subst h2; decide
    · injection h with h1 h2; subst h2; decide
    · injection h with h1 h2; subst h2; decide
    · injection h with h1 h2; subst h2; decide
    · injection h
  exact ⟨hsz, lru_budget_invariant opsC6 hsz⟩

/-- C3 counterexample: the claim says an insert whose `dataSize` exceeds the
whole budget is refused and leaves the cache unchanged; in the code
`AddGlyph` has no such refusal — on the fresh cache an oversized insert
changes the cache and stores the entry. -/
theorem oversized_insert_not_refused :
    MAX_ATLAS_SIZE < (demoEntry (MAX_ATLAS_SIZE + 1)).dataSize ∧
    AddGlyph emptyCache (demoKey 0) (demoEntry (MAX_ATLAS_SIZE + 1)) ≠ emptyCache ∧
    (AddGlyph emptyCache (demoKey 0) (demoEntry (MAX_ATLAS_SIZE + 1))).cache =
      [(demoKey 0, demoEntry (MAX_ATLAS_SIZE + 1))] := by
  refine ⟨by decide, ?_, by decide⟩
  intro h
  have : (AddGlyph emptyCache (demoKey 0) (demoEntry (MAX_ATLAS_SIZE + 1))).cache =
      emptyCache.cache := by rw [h]
  simp [AddGlyph, evictLoop, evictLoopF, emptyCache, mapInsert, MAX_ATLAS_SIZE] at this

/-- C3 amended: an entry whose `dataSize` exceeds the whole budget is NOT
refused: `AddGlyph` evicts every live entry (the while-loop condition can
never be satisfied by eviction alone) and then inserts the oversized entry
anyway, leaving it as the sole live entry and pushing the tracked memory
usage above the budget — permanent cache pollution rather than a rejected
insert. -/
theorem oversized_insert_evicts_all_and_inserts (c : GlyphAtlasCache)
    (k : GlyphCacheKey) (e : GlyphAtlasEntry) (hc : CacheInv c)
    (hds : MAX_ATLAS_SIZE < e.dataSize) :
    (AddGlyph c k e).cache = [(k, e)] ∧
    MAX_ATLAS_SIZE < (AddGlyph c k e).currentMemoryUsage := by
  rcases evictLoop_fits e.dataSize hc with hfit | hempty
  · omega
  · constructor
    · show mapInsert (evictLoop c e.dataSize).cache k e = [(k, e)]
      rw [hempty]
      rfl
    · show MAX_ATLAS_SIZE < (evictLoop c e.dataSize).currentMemoryUsage + e.dataSize
      omega

/-- Witness for the amended C3 at the fresh cache and an entry one byte over
budget. -/
theorem oversized_insert_evicts_all_and_inserts_witness :
    CacheInv emptyCache ∧ MAX_ATLAS_SIZE < (demoEntry (MAX_ATLAS_SIZE + 1)).dataSize ∧
    ((AddGlyph emptyCache (demoKey 1) (demoEntry (MAX_ATLAS_SIZE + 1))).cache =
        [(demoKey 1, demoEntry (MAX_ATLAS_SIZE + 1))] ∧
      MAX_ATLAS_SIZE <
        (AddGlyph emptyCache (demoKey 1) (demoEntry (MAX_ATLAS_SIZE + 1))).currentMemoryUsage) :=
  ⟨emptyCache_cacheInv, by decide,
    oversized_insert_evicts_all_and_inserts emptyCache (demoKey 1)
      (demoEntry (MAX_ATLAS_SIZE + 1)) emptyCache_cacheInv (by decide)⟩

/-- C6: with a budget fitting exactly three entries of size `demoSize`, after
inserting A,B,C,D (keys 0..3), calling `TryGetGlyph` on A (a miss: A was
already evicted when D was inserted), and then inserting E (key 4), the entry
evicted by E's insertion is B (key 1) — the least recently touched live
entry — and not A: B is live before E and gone after, C and D stay live, E is
live, and A was not live before E's insert (so E's insert cannot have evicted
it). -/
theorem lru_evicts_b_not_a :
    3 * demoSize ≤ MAX_ATLAS_SIZE ∧ MAX_ATLAS_SIZE < 4 * demoSize ∧
    (mapFind (runOps opsC6).cache (demoKey 1)).isSome = true ∧
    mapFind (AddGlyph (runOps opsC6) (demoKey 4) (demoEntry demoSize)).cache
      (demoKey 1) = none ∧
    mapFind (runOps opsC6).cache (demoKey 0) = none ∧
    (mapFind (AddGlyph (runOps opsC6) (demoKey 4) (demoEntry demoSize)).cache
      (demoKey 2)).isSome = true ∧
    (mapFind (AddGlyph (runOps opsC6) (demoKey 4) (demoEntry demoSize)).cache
      (demoKey 3)).isSome = true ∧
    (mapFind (AddGlyph (runOps opsC6) (demoKey 4) (demoEntry demoSize)).cache
      (demoKey 4)).isSome = true ∧
    (runOps opsC6).cache.length = 3 ∧
    (AddGlyph (runOps opsC6) (demoKey 4) (demoEntry demoSize)).cache.length = 3 := by
  decide

/-- C10: `TryGetGlyph` on a key that is not live returns `false`, no entry, and
leaves the cache (map, recency list and tracked memory usage) unchanged. -/
theorem tryGet_miss_noop (c : GlyphAtlasCache) (k : GlyphCacheKey) (now : Nat)
    (h : mapFind c.cache k = none) :
    TryGetGlyph c k now = (false, none, c) := by
  unfold TryGetGlyph
  rw [h]

/-- Witness for C10 at the fresh cache. -/
theorem tryGet_miss_noop_witness :
    mapFind emptyCache.cache (demoKey 0) = none ∧
    TryGetGlyph emptyCache (demoKey 0) 7 = (false, none, emptyCache) :=
  ⟨rfl, tryGet_miss_noop emptyCache (demoKey 0) 7 rfl⟩

/- ============================================================ -/
/- Theorems. Part 2: the instance batcher                       -/
/- ============================================================ -/

theorem runCount_snoc (l : List Nat) (t : Nat) :
    runCount (l ++ [t]) =
      if l.getLast? = some t then runCount l else runCount l + 1 := by
  induction l with
  | nil => simp [runCount]
  | cons a l ih =>
    cases l with
    | nil => by_cases h : a = t <;> simp [runCount, h]
    | cons b l' =>
      have hcons : runCount (a :: b :: l') = (if a = b then 0 else 1) + runCount (b :: l') := rfl
      have hcons2 : runCount (a :: b :: (l' ++ [t]))
          = (if a = b then 0 else 1) + runCount (b :: (l' ++ [t])) := rfl
      simp only [List.cons_append] at ih ⊢
      rw [hcons2, ih, hcons]
      have : (b :: l').getLast? = (a :: b :: l').getLast? := by
        simp [List.getLast?_cons_cons]
      rw [← this]
      by_cases h : (b :: l').getLast? = some t <;> simp [h] <;> omega

theorem sumCounts_append (bs : List BatchedDrawCall) (b : BatchedDrawCall) :
    sumCounts (bs ++ [b]) = sumCounts bs + b.instanceCount := by
  simp [sumCounts]

theorem flattenTypes_append (bs : List BatchedDrawCall) (b : BatchedDrawCall) :
    flattenTypes (bs ++ [b])
      = flattenTypes bs ++ List.replicate b.instanceCount b.shadingType := by
  simp [flattenTypes]

theorem flattenTypes_length (bs : List BatchedDrawCall) :
    (flattenTypes bs).length = sumCounts bs := by
  induction bs with
  | nil => rfl
  | cons b rest ih =>
    simp only [flattenTypes, List.map_cons, List.flatten_cons, List.length_append,
      List.length_replicate, sumCounts, List.map_cons, List.sum_cons] at ih ⊢
    omega

theorem offsetsOk_append {bs : List BatchedDrawCall} {b : BatchedDrawCall} {n : Nat} :
    offsetsOk n (bs ++ [b]) ↔
      offsetsOk n bs ∧ b.instanceOffset = n + sumCounts bs ∧ 1 ≤ b.instanceCount := by
  induction bs generalizing n with
  | nil => simp [offsetsOk, sumCounts]
  | cons b0 rest ih =>
    simp only [List.cons_append, offsetsOk, List.append_eq]
    rw [ih]
    simp only [sumCounts, List.map_cons, List.sum_cons]
    constructor
    · rintro ⟨h1, h2, h3, h4, h5⟩
      exact ⟨⟨h1, h2, h3⟩, by omega, h5⟩
    · rintro ⟨⟨h1, h2, h3⟩, h4, h5⟩
      exact ⟨h1, h2, h3, by omega, h5⟩

theorem batchAdd_inv {qs : List QuadInstance} {s : BatcherState} (q : QuadInstance)
    (h : BatchInv qs s) (hlen : qs.length < MaxInstances) :
    BatchInv (qs ++ [q]) (batchAddInstance s q) := by
  obtain ⟨hi, hic, hoff, hflat, hchain, hcount, hlast⟩ := h
  unfold batchAddInstance
  rw [hi, if_neg (by omega : ¬ MaxInstances ≤ qs.length)]
  rcases hbl : s.batches.getLast? with _ | b
  · have hbs : s.batches = [] := List.getLast?_eq_none_iff.mp hbl
    rw [hbs] at hflat
    have hqs : qs = [] := by
      have : qs.map (fun q => toShadingType q.shadingType) = [] := by
        rw [← hflat]; rfl
      simpa using this
    subst hqs
    rw [hbs]
    refine ⟨by simp, by simp, ?_, ?_, ?_, ?_, ?_⟩
    · simp [offsetsOk]
    · simp [flattenTypes]
    · simp
    · simp [runCount]
    · simp
  · rw [hbl] at hlast
    dsimp only
    by_cases hty : b.shadingType = toShadingType q.shadingType
    · rw [if_neg (not_not.mpr hty)]
      have hdecomp : s.batches.dropLast ++ [b] = s.batches :=
        List.dropLast_append_getLast? b hbl
    
      have hoff2 : offsetsOk 0 (s.batches.dropLast ++ [b]) := by
        rw [hdecomp]; exact hoff
      obtain ⟨hoff', hboff, hbc⟩ := offsetsOk_append.mp hoff2
      have hflat2 : flattenTypes s.batches.dropLast
          ++ List.replicate b.instanceCount b.shadingType
          = qs.map (fun q => toShadingType q.shadingType) := by
        rw [← flattenTypes_append, hdecomp]; exact hflat
      have hchain2 : List.Chain' (fun a b => a.shadingType ≠ b.shadingType)
          (s.batches.dropLast ++ [b]) := by
        rw [hdecomp]; exact hchain
      obtain ⟨hch1, _, hlink⟩ := List.chain'_append.mp hchain2
      have hblen : s.batches.length = s.batches.dropLast.length + 1 := by
        conv_lhs => rw [← hdecomp]
        simp
      have hql : (qs.map (fun q => toShadingType q.shadingType)).getLast? = some (toShadingType q.shadingType) := by
        rw [← hlast]
        simp [hty]
      refine ⟨by simp, by simp, ?_, ?_, ?_, ?_, ?_⟩
      · exact offsetsOk_append.mpr ⟨hoff', by simpa using hboff, by dsimp only; omega⟩
      · rw [flattenTypes_append]
        show _ ++ List.replicate (b.instanceCount + 1) b.shadingType = _
        rw [List.replicate_succ' b.instanceCount b.shadingType, ← List.append_assoc,
          hflat2, hty]
        simp
      · refine List.chain'_append.mpr ⟨hch1, by simp, ?_⟩
        intro x hx y hy
        simp at hy
        subst hy
        show x.shadingType ≠ b.shadingType
        exact hlink x hx b (by simp)
      · rw [List.map_append]
        simp only [List.map_cons, List.map_nil]
        rw [runCount_snoc, if_pos hql]
        rw [hcount] at hblen
        simp [hblen]
      · rw [List.getLast?_concat]
        simp [List.map_append, hty]
    · rw [if_pos hty]
      have hsum : sumCounts s.batches = qs.length := by
        have h1 := flattenTypes_length s.batches
        rw [hflat] at h1
        simpa using h1.symm
      refine ⟨by simp, by simp, ?_, ?_, ?_, ?_, ?_⟩
      · exact offsetsOk_append.mpr ⟨hoff, by simp [hsum], by dsimp only; omega⟩
      · rw [flattenTypes_append, hflat]
        simp
      · refine List.chain'_append.mpr ⟨hchain, by simp, ?_⟩
        intro x hx y hy
        rw [hbl] at hx
        simp at hx hy
        subst hx
        subst hy
        show b.shadingType ≠ toShadingType q.shadingType
        exact hty
      · rw [List.map_append]
        simp only [List.map_cons, List.map_nil]
        have hne : (qs.map (fun q => toShadingType q.shadingType)).getLast? ≠ some (toShadingType q.shadingType) := by
          rw [← hlast]
          intro hcon
          simp at hcon
          exact hty hcon
        rw [runCount_snoc, if_neg hne]
        simp [hcount]
      · rw [List.getLast?_concat]
        simp [List.map_append]

theorem batchBegin_inv : BatchInv [] batchBegin := by
  refine ⟨rfl, rfl, trivial, rfl, ?_, rfl, rfl⟩
  simp [batchBegin]

theorem batchRun_inv (qs : List QuadInstance) (h : qs.length ≤ MaxInstances) :
    BatchInv qs (batchRun qs) := by
  induction qs using List.reverseRecOn with
  | nil => exact batchBegin_inv
  | append_singleton rest q ih =>
    have hrest : rest.length < MaxInstances := by
      simp only [List.length_append, List.length_cons, List.length_nil] at h
      omega
    have hrun : batchRun (rest ++ [q]) = batchAddInstance (batchRun rest) q := by
      unfold batchRun
      rw [List.foldl_append]
      rfl
    rw [hrun]
    exact batchAdd_inv q (ih (le_of_lt hrest)) hrest

theorem sumCounts_take_le (l : List BatchedDrawCall) (i : Nat) :
    sumCounts (l.take i) ≤ sumCounts l := by
  induction l generalizing i with
  | nil => simp
  | cons b rest ih =>
    cases i with
    | zero => simp [sumCounts]
    | succ i =>
      simp only [List.take_succ_cons, sumCounts, List.map_cons, List.sum_cons]
      have := ih i
      simp only [sumCounts] at this
      omega

theorem sumCounts_take_mono (l : List BatchedDrawCall) {i j : Nat} (h : i ≤ j) :
    sumCounts (l.take i) ≤ sumCounts (l.take j) := by
  have : l.take i = (l.take j).take i := by
    rw [List.take_take, Nat.min_eq_left h]
  rw [this]
  exact sumCounts_take_le (l.take j) i

theorem sumCounts_take_succ (l : List BatchedDrawCall) (j : Nat) (hj : j < l.length) :
    sumCounts (l.take (j + 1)) = sumCounts (l.take j) + (l.get ⟨j, hj⟩).instanceCount := by
  induction l generalizing j with
  | nil => simp at hj
  | cons b rest ih =>
    cases j with
    | zero => simp [sumCounts]
    | succ j =>
      simp only [List.take_succ_cons, sumCounts, List.map_cons, List.sum_cons, List.get_cons_succ]
      have := ih j (by simpa using hj)
      simp only [sumCounts] at this
      omega

theorem offsetsOk_get {bs : List BatchedDrawCall} {n : Nat} (h : offsetsOk n bs) :
    ∀ j (hj : j < bs.length),
      (bs.get ⟨j, hj⟩).instanceOffset = n + sumCounts (bs.take j) ∧
      1 ≤ (bs.get ⟨j, hj⟩).instanceCount := by
  induction bs generalizing n with
  | nil => intro j hj; simp at hj
  | cons b rest ih =>
    intro j hj
    obtain ⟨hb1, hb2, hrest⟩ := h
    cases j with
    | zero => simpa [sumCounts] using ⟨hb1, hb2⟩
    | succ j =>
      have := ih hrest j (by simpa using hj)
      simp only [List.get_cons_succ, List.take_succ_cons, sumCounts, List.map_cons,
        List.sum_cons] at this ⊢
      omega

/-- C1: for every stream of fewer than 65536 instances submitted through
`_batchAddInstance` from `_batchBegin`'s empty state, the batches partition
the instance array: (a) the counts sum to the number of instances; (b) batch
`j` starts exactly at the total count of the batches before it (so the ranges
cover `[0, len)` in order, starting at 0); (c) the ranges are pairwise
disjoint (each earlier range ends at or before a later range starts); and
(d) the number of batches equals the number of maximal runs of equal
`static_cast<ShadingType>(shadingType)` — the `u16` shading type truncated to
the `u8` enum — in submission order. (The claim's original conjunct, counting
runs of the raw `u16` `shadingType`, is refuted below: the cast merges types
that are equal modulo 2^8.) -/
theorem batcher_partitions (qs : List QuadInstance) (h : qs.length < MaxInstances) :
    sumCounts (batchRun qs).batches = (batchRun qs).instances.length ∧
    (∀ j (hj : j < (batchRun qs).batches.length),
      ((batchRun qs).batches.get ⟨j, hj⟩).instanceOffset
        = sumCounts ((batchRun qs).batches.take j)) ∧
    (∀ i j (hi : i < (batchRun qs).batches.length)
      (hj : j < (batchRun qs).batches.length), i < j →
      ((batchRun qs).batches.get ⟨i, hi⟩).instanceOffset
          + ((batchRun qs).batches.get ⟨i, hi⟩).instanceCount
        ≤ ((batchRun qs).batches.get ⟨j, hj⟩).instanceOffset) ∧
    (batchRun qs).batches.length
      = runCount (qs.map (fun q => toShadingType q.shadingType)) := by
  obtain ⟨hi, hic, hoff, hflat, hchain, hcount, hlast⟩ := batchRun_inv qs (le_of_lt h)
  have hget := offsetsOk_get hoff
  refine ⟨?_, ?_, ?_, hcount⟩
  · have h1 := flattenTypes_length (batchRun qs).batches
    rw [hflat] at h1
    rw [hi]
    simpa using h1.symm
  · intro j hj
    simpa using (hget j hj).1
  · intro i j hi hj hij
    have h1 : ((batchRun qs).batches.get ⟨i, hi⟩).instanceOffset
        + ((batchRun qs).batches.get ⟨i, hi⟩).instanceCount
        = sumCounts ((batchRun qs).batches.take (i + 1)) := by
      rw [sumCounts_take_succ (batchRun qs).batches i hi]
      have := (hget i hi).1
      omega
    have h2 : sumCounts ((batchRun qs).batches.take (i + 1))
        ≤ sumCounts ((batchRun qs).batches.take j) :=
      sumCounts_take_mono _ (by omega)
    have h3 := (hget j hj).1
    omega

/-- Witness for C1 at the spec's example stream `[BG,BG,Text,Text,Text,Cursor]`
(three batches of sizes 2, 3, 1). -/
theorem batcher_partitions_witness :
    demoStream.length < MaxInstances ∧
    sumCounts (batchRun demoStream).batches = (batchRun demoStream).instances.length ∧
    (batchRun demoStream).batches.length
      = runCount (demoStream.map (fun q => toShadingType q.shadingType)) ∧
    (batchRun demoStream).batches
      = [⟨0, 2, 0⟩, ⟨2, 3, 1⟩, ⟨5, 1, 9⟩] := by
  have h : demoStream.length < MaxInstances := by decide
  exact ⟨h, (batcher_partitions demoStream h).1,
    (batcher_partitions demoStream h).2.2.2, by decide⟩

/-- C1 counterexample: the claim counts maximal runs of equal `shadingType` —
the raw `u16` field of the submitted instances. For the two-instance stream
with shading types `[0, 256]` the code produces a single batch
(`static_cast<ShadingType>` truncates both values to the `u8` enum, where
`256 % 256 = 0 = Background`), but the stream has two maximal runs of equal
raw `shadingType`; the claimed equality between the number of batches and the
number of maximal runs fails. -/
theorem batcher_run_count_not_raw_runs :
    [demoQuad 0, demoQuad 256].length < MaxInstances ∧
    (batchRun [demoQuad 0, demoQuad 256]).batches = [⟨0, 2, 0⟩] ∧
    runCount ([demoQuad 0, demoQuad 256].map (fun q => q.shadingType)) = 2 ∧
    (batchRun [demoQuad 0, demoQuad 256]).batches.length
      ≠ runCount ([demoQuad 0, demoQuad 256].map (fun q => q.shadingType)) := by
  decide

theorem batchAdd_len_le {s : BatcherState} (q : QuadInstance)
    (h : s.instances.length ≤ MaxInstances) :
    (batchAddInstance s q).instances.length ≤ MaxInstances := by
  unfold batchAddInstance
  by_cases hge : MaxInstances ≤ s.instances.length
  · rw [if_pos hge]
    exact h
  · rw [if_neg hge]
    simp only [List.length_append, List.length_cons, List.length_nil]
    omega

theorem batchRun_len_le (qs : List QuadInstance) :
    (batchRun qs).instances.length ≤ MaxInstances := by
  induction qs using List.reverseRecOn with
  | nil => simp [batchRun, batchBegin]
  | append_singleton rest q ih =>
    have hrun : batchRun (rest ++ [q]) = batchAddInstance (batchRun rest) q := by
      unfold batchRun
      rw [List.foldl_append]
      rfl
    rw [hrun]
    exact batchAdd_len_le q ih

/-- C5 counterexample: the claim asserts the strict invariant
`instances.size() < MaxInstances` after every call; but the guard in
`_batchAddInstance` only stops accepting once `size() >= MaxInstances`, so
after 65536 calls the size is exactly `MaxInstances`, violating the strict
bound. -/
theorem batcher_cap_not_strict :
    (batchRun (List.replicate MaxInstances (demoQuad 0))).instances.length
      = MaxInstances ∧
    ¬ ((batchRun (List.replicate MaxInstances (demoQuad 0))).instances.length
      < MaxInstances) := by
  have h := (batchRun_inv (List.replicate MaxInstances (demoQuad 0)) (by simp)).1
  rw [h, List.length_replicate]
  omega

/-- C5 amended: the invariant maintained by `_batchAddInstance` is
`instances.size() ≤ MaxInstances` (the bound is reached, with equality, after
65536 accepted instances), and a call made once `size() ≥ MaxInstances`
returns without modifying the state (instances, batches and counter) —
dropped visuals, not a crash. -/
theorem batcher_cap (qs : List QuadInstance) (q : QuadInstance) :
    (batchRun qs).instances.length ≤ MaxInstances ∧
    (MaxInstances ≤ (batchRun qs).instances.length →
      batchAddInstance (batchRun qs) q = batchRun qs) := by
  refine ⟨batchRun_len_le qs, ?_⟩
  intro hge
  unfold batchAddInstance
  rw [if_pos hge]

/-- Witness for the amended C5: a full stream of 65536 instances reaches the
cap exactly, and one more call is a no-op. -/
theorem batcher_cap_witness :
    (batchRun (List.replicate MaxInstances (demoQuad 0))).instances.length
      ≤ MaxInstances ∧
    MaxInstances ≤ (batchRun (List.replicate MaxInstances (demoQuad 0))).instances.length ∧
    batchAddInstance (batchRun (List.replicate MaxInstances (demoQuad 0))) (demoQuad 0)
      = batchRun (List.replicate MaxInstances (demoQuad 0)) := by
  have hfull : MaxInstances
      ≤ (batchRun (List.replicate MaxInstances (demoQuad 0))).instances.length := by
    rw [(batchRun_inv (List.replicate MaxInstances (demoQuad 0)) (by simp)).1,
      List.length_replicate]
  exact ⟨(batcher_cap (List.replicate MaxInstances (demoQuad 0)) (demoQuad 0)).1, hfull,
    (batcher_cap (List.replicate MaxInstances (demoQuad 0)) (demoQuad 0)).2 hfull⟩

/- ============================================================ -/
/- Theorems. Part 3: the frame scheduler                        -/
/- ============================================================ -/

theorem present_ok_eq {s s4 : SchedulerState} {hr : Int}
    (h : present s hr = Except.ok s4) : s4 = s := by
  unfold present at h
  split at h
  · simp at h
  · split at h
    · simp at h
    · injection h with h'
      exact h'.symm

theorem render_ok_state {s s' : SchedulerState} {cAfter : Nat} {hr : Int} {bb : Nat}
    (h : render s cAfter hr bb = Except.ok s') :
    s' = moveToNextFrame (beginFrame s cAfter) bb := by
  unfold render at h
  dsimp only at h
  rcases hp : present (executeCommandLists (populateCommandList (beginFrame s cAfter))) hr
    with e | s4
  · rw [hp] at h
    simp at h
  · rw [hp] at h
    simp only [] at h
    injection h with h'
    rw [← h']
    have hs4 : s4 = beginFrame s cAfter := present_ok_eq hp
    rw [hs4]

theorem gpuStep_watermark {s : SchedulerState} {cNow cAfter : Nat}
    (h : GpuStep s cNow cAfter) : watermarkOf s ≤ cAfter := by
  obtain ⟨h1, h2, h3⟩ := h
  by_cases hc : cNow < watermarkOf s
  · rw [if_pos hc] at h3
    exact h3.1
  · rw [if_neg hc] at h3
    omega

/-- C4: in every reachable execution of the steady-state render loop, every
command-allocator reset performed by `_beginFrame` happens only once the
graphics fence's completed value has reached the watermark
(`FrameResource::fenceValue`) recorded for the slot being reused: every entry
`(slot, watermark, completedAtReset)` of the reset log satisfies
`watermark ≤ completedAtReset`. -/
theorem beginFrame_waits_for_slot_fence (s : SchedulerState) (h : Reachable s) :
    ∀ slot wm comp, (slot, wm, comp) ∈ s.resetLog → wm ≤ comp := by
  induction h with
  | init => intro slot wm comp hmem; simp [initState] at hmem
  | renderOk hreach hgpu hbb heq ih =>
    next s s' cNow cAfter hr bb =>
      intro slot wm comp hmem
      rw [render_ok_state heq] at hmem
      simp only [moveToNextFrame, beginFrame, List.mem_append, List.mem_singleton] at hmem
      rcases hmem with hmem | hmem
      · exact ih slot wm comp hmem
      · have hwm := gpuStep_watermark hgpu
        simp [Prod.ext_iff] at hmem
        omega
  | renderErr hreach hgpu hbb heq ih =>
    next s cNow cAfter hr bb e =>
      intro slot wm comp hmem
      simp only [beginFrame, List.mem_append, List.mem_singleton] at hmem
      rcases hmem with hmem | hmem
      · exact ih slot wm comp hmem
      · have hwm := gpuStep_watermark hgpu
        simp [Prod.ext_iff] at hmem
        omega

/-- Witness for C4: one render aborted at present (device removed) from the
initial state; its allocator reset was logged with watermark 0 and completed
value 0, and the theorem yields the required inequality. -/
theorem beginFrame_waits_for_slot_fence_witness :
    Reachable (beginFrame initState 0) ∧
    ((0 : Nat), (0 : Nat), (0 : Nat)) ∈ (beginFrame initState 0).resetLog ∧
    (0 : Nat) ≤ (0 : Nat) := by
  have hgpu : GpuStep initState 0 0 := by
    refine ⟨Nat.le_refl 0, Nat.le_refl 0, ?_⟩
    simp [watermarkOf, initState]
  have hreach : Reachable (beginFrame initState 0) :=
    @Reachable.renderErr initState 0 0 DXGI_ERROR_DEVICE_REMOVED 0
      DXGI_ERROR_DEVICE_REMOVED Reachable.init hgpu (by decide) rfl
  have hmem : ((0 : Nat), (0 : Nat), (0 : Nat)) ∈ (beginFrame initState 0).resetLog := by
    simp [beginFrame, initState, watermarkOf]
  exact ⟨hreach, hmem,
    beginFrame_waits_for_slot_fence (beginFrame initState 0) hreach 0 0 0 hmem⟩

theorem signal_invariant (s : SchedulerState) (h : Reachable s) :
    List.Chain' (fun a b => a < b) s.signalLog ∧
    ∀ v ∈ s.signalLog, v < s.fenceValue := by
  induction h with
  | init => exact ⟨by simp [initState], by simp [initState]⟩
  | renderOk hreach hgpu hbb heq ih =>
    next s s' cNow cAfter hr bb =>
      rw [render_ok_state heq]
      simp only [moveToNextFrame, beginFrame]
      constructor
      · refine List.chain'_append.mpr ⟨ih.1, by simp, ?_⟩
        intro x hx y hy
        simp at hy
        subst hy
        exact ih.2 x (List.mem_of_mem_getLast? hx)
      · intro v hv
        rcases List.mem_append.mp hv with hv | hv
        · have := ih.2 v hv
          omega
        · simp at hv
          omega
  | renderErr hreach hgpu hbb heq ih =>
    next s cNow cAfter hr bb e =>
      simpa only [beginFrame] using ih

/-- C9: over any reachable execution, the values signalled on the graphics
fence by successive `_moveToNextFrame` calls strictly increase (the signal log
is a strictly increasing chain); moreover each `_moveToNextFrame` appends
exactly `_fenceValue` to that log, stores it as the *current* slot's
`FrameResource::fenceValue` watermark before the frame index is advanced to
the back-buffer index the presentation engine reports, and leaves
`_fenceValue` strictly larger than the value just signalled. -/
theorem moveToNextFrame_monotone_signal (s : SchedulerState) (h : Reachable s) :
    List.Chain' (fun a b => a < b) s.signalLog ∧
    ∀ bb, (moveToNextFrame s bb).signalLog = s.signalLog ++ [s.fenceValue] ∧
      (moveToNextFrame s bb).frameResources
        = s.frameResources.set s.currentFrameIndex s.fenceValue ∧
      (moveToNextFrame s bb).currentFrameIndex = bb ∧
      s.fenceValue < (moveToNextFrame s bb).fenceValue :=
  ⟨(signal_invariant s h).1, fun _ => ⟨rfl, rfl, rfl, Nat.lt_succ_self _⟩⟩

/-- Witness for C9: the state after one completed render from the initial
state; its signal log is `[1]`, a strictly increasing chain, and a further
`_moveToNextFrame` would append `2` and store it in slot 0. -/
theorem moveToNextFrame_monotone_signal_witness :
    Reachable (moveToNextFrame (beginFrame initState 0) 0) ∧
    List.Chain' (fun a b => a < b) (moveToNextFrame (beginFrame initState 0) 0).signalLog ∧
    (moveToNextFrame (moveToNextFrame (beginFrame initState 0) 0) 0).currentFrameIndex
      = 0 := by
  have hgpu : GpuStep initState 0 0 := by
    refine ⟨Nat.le_refl 0, Nat.le_refl 0, ?_⟩
    simp [watermarkOf, initState]
  have hreach : Reachable (moveToNextFrame (beginFrame initState 0) 0) :=
    @Reachable.renderOk initState (moveToNextFrame (beginFrame initState 0) 0) 0 0 0 0
      Reachable.init hgpu (by decide) rfl
  have h := moveToNextFrame_monotone_signal _ hreach
  exact ⟨hreach, h.1, (h.2 0).2.2.1⟩

/-- C7: when the swap-chain present reports `DXGI_ERROR_DEVICE_REMOVED` or
`DXGI_ERROR_DEVICE_RESET`, `_present` throws that HRESULT unchanged and
`Render` aborts with the same error: no recovery is attempted, no retry
happens, and `_moveToNextFrame` (the only state mutation after present) never
runs — the error reaches the caller of `Render` as-is. -/
theorem present_device_loss_fatal (s : SchedulerState) (cAfter : Nat) (hr : Int)
    (bb : Nat) (h : hr = DXGI_ERROR_DEVICE_REMOVED ∨ hr = DXGI_ERROR_DEVICE_RESET) :
    present (executeCommandLists (populateCommandList (beginFrame s cAfter))) hr
        = Except.error hr ∧
    render s cAfter hr bb = Except.error hr := by
  have hp : ∀ s0 : SchedulerState, present s0 hr = Except.error hr := by
    intro s0
    unfold present
    rw [if_pos h]
  refine ⟨hp _, ?_⟩
  unfold render
  dsimp only
  rw [hp _]

/-- Witness for C7 at the initial state and `DXGI_ERROR_DEVICE_REMOVED`. -/
theorem present_device_loss_fatal_witness :
    (DXGI_ERROR_DEVICE_REMOVED = DXGI_ERROR_DEVICE_REMOVED ∨
      DXGI_ERROR_DEVICE_REMOVED = DXGI_ERROR_DEVICE_RESET) ∧
    render initState 0 DXGI_ERROR_DEVICE_REMOVED 0
      = Except.error DXGI_ERROR_DEVICE_REMOVED :=
  ⟨Or.inl rfl,
    (present_device_loss_fatal initState 0 DXGI_ERROR_DEVICE_REMOVED 0 (Or.inl rfl)).2⟩

/- ============================================================ -/
/- Theorems. Part 4: the rect-pack atlas allocator              -/
/- ============================================================ -/

theorem rpInit_inv (w h : Nat) : PackInv (rpInit w h) := by
  refine ⟨?_, ?_, ?_⟩ <;> simp [rpInit]

theorem rpAllocate_step {p : RectPacker} {w h : Nat} {r : PackRect} {p' : RectPacker}
    (hinv : PackInv p) (halloc : rpAllocate p w h = some (r, p')) :
    PackInv p' ∧ p'.allocated = r :: p.allocated ∧
    p'.width = p.width ∧ p'.height = p.height := by
  obtain ⟨hbounds, hdisj, hshelf⟩ := hinv
  unfold rpAllocate at halloc
  split at halloc
  · next hc1 =>
    injection halloc with h'
    injection h' with hr hp'
    subst hr
    subst hp'
    refine ⟨⟨?_, ?_, ?_⟩, rfl, rfl, rfl⟩
    · intro r' hr'
      rcases List.mem_cons.mp hr' with hr' | hr'
      · subst hr'
        exact ⟨hc1.1, hc1.2⟩
      · exact hbounds r' hr'
    · refine List.pairwise_cons.mpr ⟨?_, hdisj⟩
      intro r' hr'
      rcases hshelf r' hr' with hcase | hcase
      · exact Or.inr (Or.inr (Or.inr hcase))
      · exact Or.inr (Or.inl hcase.2.1)
    · intro r' hr'
      rcases List.mem_cons.mp hr' with hr' | hr'
      · subst hr'
        exact Or.inr ⟨rfl, by simp, by simp [Nat.le_max_right]⟩
      · rcases hshelf r' hr' with hcase | hcase
        · exact Or.inl hcase
        · refine Or.inr ⟨hcase.1, ?_, ?_⟩
          · simp only
            omega
          · have := hcase.2.2
            have hmax : p.shelfH ≤ max p.shelfH h := Nat.le_max_left _ _
            simp only
            omega
  · dsimp only at halloc
    split at halloc
    · next hc2 =>
      injection halloc with h'
      injection h' with hr hp'
      subst hr
      subst hp'
      have hold : ∀ r' ∈ p.allocated, r'.y + r'.h ≤ p.shelfY + p.shelfH := by
        intro r' hr'
        rcases hshelf r' hr' with hcase | hcase
        · omega
        · exact hcase.2.2
      refine ⟨⟨?_, ?_, ?_⟩, rfl, rfl, rfl⟩
      · intro r' hr'
        rcases List.mem_cons.mp hr' with hr' | hr'
        · subst hr'
          exact ⟨by simpa using hc2.1, hc2.2⟩
        · exact hbounds r' hr'
      · refine List.pairwise_cons.mpr ⟨?_, hdisj⟩
        intro r' hr'
        exact Or.inr (Or.inr (Or.inr (hold r' hr')))
      · intro r' hr'
        rcases List.mem_cons.mp hr' with hr' | hr'
        · subst hr'
          exact Or.inr ⟨rfl, by simp, by simp⟩
        · exact Or.inl (hold r' hr')
    · exact absurd halloc (by simp)

theorem rpRun_inv (reqs : List (Nat × Nat)) (p : RectPacker) (hinv : PackInv p) :
    PackInv (rpRun p reqs) ∧ (rpRun p reqs).width = p.width ∧
    (rpRun p reqs).height = p.height := by
  induction reqs generalizing p with
  | nil => exact ⟨hinv, rfl, rfl⟩
  | cons wh rest ih =>
    obtain ⟨w, h⟩ := wh
    show PackInv (rpRun _ _) ∧ _
    unfold rpRun
    rcases halloc : rpAllocate p w h with _ | rp'
    · exact ih p hinv
    · obtain ⟨r, p'⟩ := rp'
      obtain ⟨hinv', _, hw, hh⟩ := rpAllocate_step hinv halloc
      have := ih p' hinv'
      exact ⟨this.1, by rw [this.2.1, hw], by rw [this.2.2, hh]⟩

/-- C8 (modelled from the spec: the packer implementation is vendored and not
part of the sources): for any sequence of `Allocate` calls whose requested
sizes individually fit within the atlas dimensions, no two returned regions
ever overlap, and every returned region (texcoord + size) lies within the
atlas texture bounds. (The size hypothesis is stated as in the claim; the
shelf packer in fact guarantees both properties for arbitrary requests, since
a request that does not fit returns `none`.) -/
theorem rectpack_no_overlap (reqs : List (Nat × Nat)) (W H : Nat)
    (_hfit : ∀ wh ∈ reqs, wh.1 ≤ W ∧ wh.2 ≤ H) :
    (rpRun (rpInit W H) reqs).allocated.Pairwise rectDisjoint ∧
    ∀ r ∈ (rpRun (rpInit W H) reqs).allocated, rectInBounds r W H := by
  obtain ⟨⟨hb, hp, _⟩, hw, hh⟩ := rpRun_inv reqs (rpInit W H) (rpInit_inv W H)
  refine ⟨hp, ?_⟩
  intro r hr
  have := hb r hr
  rw [hw, hh] at this
  exact this

/-- Witness for C8: three 2×2 requests into a 4×4 atlas — two on the first
shelf, the third on a fresh shelf, pairwise disjoint and in bounds. -/
theorem rectpack_no_overlap_witness :
    (∀ wh ∈ [((2 : Nat), (2 : Nat)), (2, 2), (2, 2)], wh.1 ≤ 4 ∧ wh.2 ≤ 4) ∧
    (rpRun (rpInit 4 4) [(2, 2), (2, 2), (2, 2)]).allocated.Pairwise rectDisjoint ∧
    (rpRun (rpInit 4 4) [(2, 2), (2, 2), (2, 2)]).allocated
      = [⟨0, 2, 2, 2⟩, ⟨2, 0, 2, 2⟩, ⟨0, 0, 2, 2⟩] := by
  have hfit : ∀ wh ∈ [((2 : Nat), (2 : Nat)), (2, 2), (2, 2)], wh.1 ≤ 4 ∧ wh.2 ≤ 4 := by
    decide
  exact ⟨hfit, (rectpack_no_overlap [(2, 2), (2, 2), (2, 2)] 4 4 hfit).1, by decide⟩
